import Mathlib

/-!
# Verification of the merit library (`src/lib/merit.js`)

A shallow embedding of the `Merit` class.  JavaScript numbers are modelled by
`ℚ`; a JS number that may be `NaN` (because it arose from coercing a missing
field, e.g. `Number(undefined)`) is modelled by `Option ℚ` with `none` playing
the role of `NaN`.  Optional / possibly-absent record fields are `Option`
valued (`none` = the field is absent).  The asynchronous ledger collaborators
(`wallet.getUtxos`, `wallet.getTxData`, `wallet.getTransactions`,
`bchjs.Blockchain.getBlockCount`, `bchjs.SLP.Address.toCashAddress`) are
modelled as pure fields of a `Ledger` record.  The unbounded `while` loop of
`getParentAge` is modelled with an explicit fuel parameter.
-/

namespace Merit

/-- One entry of `txData.vin`: a spent input, `{txid, vout}` (merit.js:222-227). -/
structure VinEntry where
  txid : String
  vout : Nat
deriving DecidableEq

/-- The transaction data returned by `wallet.getTxData([txid])[0]`: the fields
read by `findTokenParent` (merit.js:215-264). `tokenId` is absent (`none`) on
non-token transactions. -/
structure TxData where
  tokenId : Option String
  isValidSlp : Bool
  vin : List VinEntry
deriving DecidableEq

/-- One row of the address transaction history returned by
`wallet.getTransactions(addr)` (merit.js:232): `{tx_hash, height}`. -/
structure HistoryEntry where
  tx_hash : String
  height : Int
deriving DecidableEq

/-- The record built by `findTokenParent`: a history entry with the `tx_pos`
field added (merit.js:260). -/
structure ParentRec where
  tx_hash : String
  height : Int
  tx_pos : Nat
deriving DecidableEq

/-- A hydrated UTXO as consumed by `calcMerit` / produced by `getTokenUtxos`.
`tokenId`, `tokenQty` and `value` may be absent (`none`); `calcMerit` reads
`tx_hash`, `height`, `tokenQty` and `value` (merit.js:115-149). -/
structure Utxo where
  tx_hash : String
  tx_pos : Nat
  height : Int
  tokenId : Option String
  tokenQty : Option ℚ
  value : Option ℚ
deriving DecidableEq

/-- A UTXO enriched with the `age` and `merit` properties that `calcMerit`
adds in place (merit.js:146-147).  `merit` is `Option ℚ`: `none` models the
JS `NaN` produced when a required numeric field was missing. -/
structure MeritUtxo where
  utxo : Utxo
  age : ℚ
  merit : Option ℚ
deriving DecidableEq

/-- The value of `wallet.getUtxos(address)` as read by `getTokenUtxos`:
`utxos.slpUtxos.type1.tokens` and `utxos.bchUtxos` (merit.js:58-64). -/
structure WalletUtxos where
  tokenUtxos : List Utxo
  bchUtxos : List Utxo
deriving DecidableEq

/-- The external ledger collaborators used by the library, as pure functions.
`getTxData` already incorporates the `[0]` indexing of
`wallet.getTxData([txid])[0]` (merit.js:215-216, 253-256). -/
structure Ledger where
  toCashAddress : String → String
  getUtxos : String → WalletUtxos
  getTxData : String → TxData
  getTransactions : String → List HistoryEntry
  blockCount : Int

/-- JS truthiness of a possibly-absent string field: `undefined` and the empty
string are falsy. -/
def truthyOpt : Option String → Bool
  | none => false
  | some s => s ≠ ""

/-- `isPrefixL n h`: the char list `n` is a prefix of `h`. -/
def isPrefixL : List Char → List Char → Bool
  | [], _ => true
  | _ :: _, [] => false
  | a :: as, b :: bs => a = b && isPrefixL as bs

/-- `isSubL n h`: the char list `n` occurs contiguously inside `h`. -/
def isSubL (n : List Char) : List Char → Bool
  | [] => n.isEmpty
  | b :: bs => isPrefixL n (b :: bs) || isSubL n bs

/-- JS `hay.includes(needle)`: substring containment, used by the token filter
`elem.tokenId.includes(tokenId)` (merit.js:59). -/
def jsIncludes (hay needle : String) : Bool :=
  isSubL needle.data hay.data

/-- Addition of possibly-`NaN` JS numbers: `NaN` is absorbing. -/
def jadd : Option ℚ → Option ℚ → Option ℚ
  | some a, some b => some (a + b)
  | _, _ => none

/-- Modelled from the spec: `floor2` is the external `bchjs.Util.floor2`
collaborator (merit.js:135), which per the spec "truncates to two decimal
places, never rounds up". -/
def floor2 (x : ℚ) : ℚ := (Rat.floor (x * 100) : ℚ) / 100

/-- `getTokenUtxos(address, tokenId, utxoDelay)` (merit.js:41-72): normalize
the address, fetch the UTXO set, and filter.  Token mode
(`tokenId` truthy, i.e. a non-empty string): keep the type-1 token UTXOs with
`elem.tokenId && elem.tokenId.includes(tokenId)`.  Native mode: keep the
`bchUtxos` with `!elem.tokenId`.  The `utxoDelay` pacing parameter has no
effect on the value computed and is omitted. -/
def getTokenUtxos (L : Ledger) (address tokenId : String) : List Utxo :=
  let addr := L.toCashAddress address
  let utxos := L.getUtxos addr
  if tokenId ≠ "" then
    utxos.tokenUtxos.filter (fun elem =>
      truthyOpt elem.tokenId &&
        (match elem.tokenId with
         | some s => jsIncludes s tokenId
         | none => false))
  else
    utxos.bchUtxos.filter (fun elem => ! truthyOpt elem.tokenId)

/-- `findTokenParent(txid, addr)` (merit.js:211-278): fetch the child tx data,
take its inputs as candidate parents, and scan the address's transaction
history.  Every history entry matching a candidate's txid whose own tx data
`isValidSlp` and whose `tokenId` equals the child's is stored into
`parentInfo`, overwriting the previous value; `false` (here `none`) is
returned when no candidate qualified. -/
def findTokenParent (L : Ledger) (txid addr : String) : Option ParentRec :=
  let txData := L.getTxData txid
  let childTokenId := txData.tokenId
  let parentUtxos := txData.vin
  let txHistory := L.getTransactions addr
  parentUtxos.foldl
    (fun parentInfo pu =>
      let m := txHistory.filter (fun e => e.tx_hash = pu.txid)
      m.foldl
        (fun pInfo thisUtxo =>
          let thisTxData := L.getTxData thisUtxo.tx_hash
          if thisTxData.isValidSlp ∧ childTokenId = thisTxData.tokenId then
            some ⟨thisUtxo.tx_hash, thisUtxo.height, pu.vout⟩
          else pInfo)
        parentInfo)
    none

/-- The loop body of `getParentAge` (merit.js:171-180) with explicit fuel.
Each iteration tests the truthiness of `txid` (a falsy `txid` — the
`undefined` obtained from `false.tx_hash`, or an empty string — ends the
loop), resolves `findTokenParent`, steps `txid` to the parent's `tx_hash`
(`undefined`, i.e. `""`-falsy, when the parent is `false`) and keeps the last
truthy parent in `oldestUtxo`. -/
def getParentAgeAux (L : Ledger) (addr : String) :
    Nat → String → Option ParentRec → Option ParentRec
  | 0, _, oldest => oldest
  | fuel + 1, txid, oldest =>
    if txid = "" then oldest
    else
      match findTokenParent L txid addr with
      | none => oldest
      | some p => getParentAgeAux L addr fuel p.tx_hash (some p)

/-- `getParentAge(txid, addr)` (merit.js:164-187): walk the ancestry via
`findTokenParent` until it yields `false`, returning the last parent found
(`none` when no parent was ever found). -/
def getParentAge (L : Ledger) (fuel : Nat) (txid addr : String) : Option ParentRec :=
  getParentAgeAux L addr fuel txid none

/-- The loop body of `calcMerit` for one UTXO (merit.js:116-147): compute the
age (0 when aging is disabled, and forced to 0 for an unconfirmed UTXO with
`height == 0`), then the merit (`Number(elem.tokenQty)` in token mode,
`elem.value / 100000000` in native mode, multiplied by the age when aging is
enabled), and attach both to the UTXO. -/
def calcOne (L : Ledger) (meritAge : Bool) (fuel : Nat) (bchAddr tokenId : String)
    (currentBlockHeight : Int) (elem : Utxo) : MeritUtxo :=
  let age : ℚ :=
    if meritAge then
      let height := elem.height
      let parentUtxo := getParentAge L fuel elem.tx_hash bchAddr
      let height := match parentUtxo with
        | some p => p.height
        | none => height
      let age := ((currentBlockHeight : ℚ) - (height : ℚ)) / 144
      let age := floor2 age
      if elem.height = 0 then 0 else age
    else 0
  let merit : Option ℚ :=
    if tokenId ≠ "" then elem.tokenQty
    else elem.value.map (fun v => v / 100000000)
  let merit := if meritAge then merit.map (fun m => m * age) else merit
  ⟨elem, age, merit⟩

/-- The argument of `calcMerit`, which first checks `Array.isArray`
(merit.js:100-102): either not an array, or an array of UTXO records. -/
inductive JsArg (α : Type) where
  | notArray
  | arr (xs : List α)
deriving DecidableEq

/-- `calcMerit(hydratedUtxos, address, tokenId)` (merit.js:98-157): reject a
non-array input, fetch the block count when aging is enabled (`MERIT_AGE`,
here `meritAge`; `currentBlockHeight` stays 0 otherwise), and push the
enriched UTXOs onto `updatedUtxos` in order. -/
def calcMerit (L : Ledger) (meritAge : Bool) (fuel : Nat) (hydratedUtxos : JsArg Utxo)
    (address tokenId : String) : Except String (List MeritUtxo) :=
  match hydratedUtxos with
  | .notArray => .error "Input hydratedUtxo must be an array"
  | .arr xs =>
    let bchAddr := L.toCashAddress address
    let currentBlockHeight : Int := if meritAge then L.blockCount else 0
    .ok (xs.foldl
      (fun updatedUtxos elem =>
        updatedUtxos ++ [calcOne L meritAge fuel bchAddr tokenId currentBlockHeight elem])
      [])

/-- The summation loop of `agMerit` (merit.js:306-308): `agMerit` starts at 0
and accumulates `elem.merit` (a `NaN` merit poisons the sum). -/
def sumMerits (meritUtxos : List MeritUtxo) : Option ℚ :=
  meritUtxos.foldl (fun acc elem => jadd acc elem.merit) (some 0)

/-- `agMerit(address, tokenId, utxoDelay)` (merit.js:288-315): reject a falsy
(empty) address, select the UTXOs, enrich them with `calcMerit`, and sum the
merit values. -/
def agMerit (L : Ledger) (meritAge : Bool) (fuel : Nat) (address tokenId : String) :
    Except String (Option ℚ) :=
  if address = "" then .error "an address must be specified!"
  else
    let utxos := getTokenUtxos L address tokenId
    match calcMerit L meritAge fuel (.arr utxos) address tokenId with
    | .error e => .error e
    | .ok meritUtxos => .ok (sumMerits meritUtxos)

/-- The acceptance test of `findTokenParent` for one history entry `e`
matching a candidate input with output index `vout` (merit.js:253-268):
`some` of the parent record when the entry's transaction data `isValidSlp`
and its `tokenId` equals the child's, `none` otherwise. -/
def acceptParent (L : Ledger) (childTokenId : Option String) (vout : Nat)
    (e : HistoryEntry) : Option ParentRec :=
  let thisTxData := L.getTxData e.tx_hash
  if thisTxData.isValidSlp ∧ childTokenId = thisTxData.tokenId then
    some ⟨e.tx_hash, e.height, vout⟩
  else none

/-- Modelled from the spec (§4.2): the sequence of parent candidates that the
spec's `resolveParent` accepts, in evaluation order — for each input of the
child transaction (in `vin` order), for each history entry whose `tx_hash`
equals that input's txid (in history order), those whose fetched record is a
validly-formed token transaction with the child's `tokenId`.  To be compared
with the source-derived `findTokenParent`. -/
def validParents (L : Ledger) (txid addr : String) : List ParentRec :=
  let txData := L.getTxData txid
  txData.vin.flatMap (fun pu =>
    ((L.getTransactions addr).filter (fun e => e.tx_hash = pu.txid)).filterMap
      (acceptParent L txData.tokenId pu.vout))

/-- A resolution chain for the ancestry walk: starting from `t`, each listed
parent is what `findTokenParent` resolves next, and the transaction of the
last listed parent resolves to the empty result. -/
def IsResolutionChain (L : Ledger) (addr : String) : String → List ParentRec → Prop
  | t, [] => findTokenParent L t addr = none
  | t, p :: ps => findTokenParent L t addr = some p ∧ IsResolutionChain L addr p.tx_hash ps

/-! ## Concrete data used by the witnesses -/

/-- A ledger with an empty wallet and no transaction data: every parent
lookup resolves to the empty result. -/
def demoLedger : Ledger :=
  { toCashAddress := id
    getUtxos := fun _ => ⟨[], []⟩
    getTxData := fun _ => ⟨none, false, []⟩
    getTransactions := fun _ => []
    blockCount := 665800 }

/-- The UTXO of the spec's scenarios A and B: block height 665504 and token
quantity 5000. -/
def scenUtxo : Utxo := ⟨"aa", 0, 665504, some "tok", some 5000, none⟩

/-- A malformed token UTXO: its `tokenQty` field is absent. -/
def badUtxo : Utxo := ⟨"bb", 0, 5, some "tok", none, none⟩

/-- An unconfirmed UTXO: its block height is 0 (and `tokenQty` is absent so
that its merit needs no rational arithmetic to evaluate). -/
def zeroUtxo : Utxo := ⟨"t0", 0, 0, some "tok", none, none⟩

/-- A one-token-UTXO wallet for the aggregate witnesses. -/
def w1Ledger : Ledger :=
  { toCashAddress := id
    getUtxos := fun _ => ⟨[scenUtxo, ⟨"cc", 1, 665600, some "other", some 7, none⟩], []⟩
    getTxData := fun _ => ⟨none, false, []⟩
    getTransactions := fun _ => []
    blockCount := 665800 }

/-- A ledger whose transaction graph forms the two-step ancestry chain
`t0 → t1 → t2`, all same-address and same-token. -/
def chainLedger : Ledger :=
  { toCashAddress := id
    getUtxos := fun _ => ⟨[], []⟩
    getTxData := fun t =>
      if t = "t0" then ⟨some "tk", true, [⟨"t1", 0⟩]⟩
      else if t = "t1" then ⟨some "tk", true, [⟨"t2", 1⟩]⟩
      else if t = "t2" then ⟨some "tk", true, []⟩
      else ⟨none, false, []⟩
    getTransactions := fun _ => [⟨"t1", 100⟩, ⟨"t2", 50⟩]
    blockCount := 665800 }

/-- The resolution chain of `chainLedger` starting at `t0`. -/
def chainParents : List ParentRec := [⟨"t1", 100, 0⟩, ⟨"t2", 50, 1⟩]

/-! ## Helper lemmas -/

theorem jadd_right_comm (b x y : Option ℚ) :
    jadd (jadd b x) y = jadd (jadd b y) x := by
  cases b <;> cases x <;> cases y <;> simp [jadd]
  ring

theorem foldl_push_eq_map {α β : Type} (f : α → β) (xs : List α) (acc : List β) :
    xs.foldl (fun a x => a ++ [f x]) acc = acc ++ xs.map f := by
  induction xs generalizing acc with
  | nil => simp
  | cons x xs ih => simp [ih]

/-- `calcMerit` on an array input succeeds and maps `calcOne` over the list. -/
theorem calcMerit_arr (L : Ledger) (m : Bool) (fuel : Nat) (xs : List Utxo)
    (address tokenId : String) :
    calcMerit L m fuel (.arr xs) address tokenId =
      .ok (xs.map
        (calcOne L m fuel (L.toCashAddress address) tokenId (if m then L.blockCount else 0))) := by
  simp [calcMerit, foldl_push_eq_map]

/-- With aging disabled, `calcOne` assigns age 0 and the raw unit merit. -/
theorem calcOne_off (L : Ledger) (fuel : Nat) (bchAddr tokenId : String)
    (cbh : Int) (elem : Utxo) :
    calcOne L false fuel bchAddr tokenId cbh elem =
      ⟨elem, 0,
        if tokenId ≠ "" then elem.tokenQty
        else elem.value.map (fun v => v / 100000000)⟩ := by
  simp [calcOne]

theorem foldl_jadd_some (l : List MeritUtxo) (h : ∀ e ∈ l, e.merit.isSome) (a : ℚ) :
    l.foldl (fun acc e => jadd acc e.merit) (some a) =
      some (a + (l.map (fun e => e.merit.getD 0)).sum) := by
  induction l generalizing a with
  | nil => simp
  | cons e es ih =>
    obtain ⟨q, hq⟩ := Option.isSome_iff_exists.mp (h e (by simp))
    have hes : ∀ x ∈ es, x.merit.isSome := fun x hx => h x (by simp [hx])
    have h1 : jadd (some a) e.merit = some (a + q) := by rw [hq]; rfl
    rw [List.foldl_cons, h1, ih hes]
    simp [hq, add_assoc]

/-- When every merit is a genuine number, `sumMerits` is the plain sum. -/
theorem sumMerits_eq (l : List MeritUtxo) (h : ∀ e ∈ l, e.merit.isSome) :
    sumMerits l = some ((l.map (fun e => e.merit.getD 0)).sum) := by
  simpa [sumMerits] using foldl_jadd_some l h 0

instance : RightCommutative (fun (acc : Option ℚ) (e : MeritUtxo) => jadd acc e.merit) :=
  ⟨fun b x y => jadd_right_comm b x.merit y.merit⟩

/-- `sumMerits` is invariant under permutation of its input list. -/
theorem sumMerits_perm {l₁ l₂ : List MeritUtxo} (h : l₁.Perm l₂) :
    sumMerits l₁ = sumMerits l₂ :=
  h.foldl_eq (some 0)

/-! ## C1 -/

/-- C1: with aging disabled, `agMerit` equals the sum over the selected UTXOs
of `tokenQty` in token mode and `value / 1e8` in native mode, and the merit
sum is independent of the order of the UTXOs. -/
theorem agMerit_aging_off (L : Ledger) (fuel : Nat) (address tokenId : String)
    (haddr : address ≠ "") :
    (tokenId ≠ "" →
      (∀ u ∈ getTokenUtxos L address tokenId, u.tokenQty.isSome) →
      agMerit L false fuel address tokenId =
        .ok (some (((getTokenUtxos L address tokenId).map
          (fun u => u.tokenQty.getD 0)).sum)))
    ∧ (tokenId = "" →
      (∀ u ∈ getTokenUtxos L address tokenId, u.value.isSome) →
      agMerit L false fuel address tokenId =
        .ok (some (((getTokenUtxos L address tokenId).map
          (fun u => u.value.getD 0 / 100000000)).sum)))
    ∧ (∀ xs ys : List Utxo, xs.Perm ys →
        sumMerits (xs.map (calcOne L false fuel (L.toCashAddress address) tokenId 0)) =
          sumMerits (ys.map (calcOne L false fuel (L.toCashAddress address) tokenId 0))) := by
  refine ⟨?_, ?_, ?_⟩
  · intro htok h
    simp only [agMerit, if_neg haddr, calcMerit_arr]
    rw [sumMerits_eq]
    · congr 1
      rw [List.map_map]
      refine congrArg (fun l => some (List.sum l)) (List.map_congr_left ?_)
      intro u _
      simp [calcOne_off, htok]
    · intro e he
      rw [List.mem_map] at he
      obtain ⟨u, hu, rfl⟩ := he
      simp [calcOne_off, htok]
      exact h u hu
  · intro htok h
    simp only [agMerit, if_neg haddr, calcMerit_arr]
    rw [sumMerits_eq]
    · congr 1
      rw [List.map_map]
      refine congrArg (fun l => some (List.sum l)) (List.map_congr_left ?_)
      intro u hu
      obtain ⟨v, hv⟩ := Option.isSome_iff_exists.mp (h u hu)
      simp [calcOne_off, htok, hv]
    · intro e he
      rw [List.mem_map] at he
      obtain ⟨u, hu, rfl⟩ := he
      obtain ⟨v, hv⟩ := Option.isSome_iff_exists.mp (h u hu)
      simp [calcOne_off, htok, hv]
  · intro xs ys hperm
    exact sumMerits_perm (hperm.map _)

/-! ## C2: the parent matcher -/

theorem foldl_overwrite {α β : Type} (g : α → Option β) (l : List α) (a : Option β) :
    l.foldl (fun acc x => (g x).or acc) a = ((l.filterMap g).getLast?).or a := by
  induction l generalizing a with
  | nil => simp
  | cons x xs ih =>
    rw [List.foldl_cons, ih, List.filterMap_cons]
    cases hx : g x with
    | none => simp
    | some y =>
      rw [List.getLast?_cons]
      cases ht : (xs.filterMap g).getLast? <;> simp [Option.or]

theorem foldl_overwrite_flat {α γ β : Type} (G : α → List γ) (g : α → γ → Option β)
    (l : List α) (a : Option β) :
    l.foldl (fun acc x => (G x).foldl (fun acc2 y => (g x y).or acc2) acc) a =
      ((l.flatMap (fun x => (G x).filterMap (g x))).getLast?).or a := by
  induction l generalizing a with
  | nil => simp
  | cons x xs ih =>
    rw [List.foldl_cons, ih, foldl_overwrite, List.flatMap_cons, List.getLast?_append]
    cases ((G x).filterMap (g x)).getLast? <;>
      cases (xs.flatMap fun x => (G x).filterMap (g x)).getLast? <;> simp [Option.or]

/-- The source's overwrite-in-loop structure, rephrased with `Option.or`. -/
theorem findTokenParent_eq_foldl (L : Ledger) (txid addr : String) :
    findTokenParent L txid addr =
      (L.getTxData txid).vin.foldl
        (fun acc pu =>
          ((L.getTransactions addr).filter (fun e => e.tx_hash = pu.txid)).foldl
            (fun acc2 e => (acceptParent L (L.getTxData txid).tokenId pu.vout e).or acc2)
            acc)
        none := by
  unfold findTokenParent
  refine congrFun (congrFun (congrArg _ ?_) _) _
  funext acc pu
  refine congrFun (congrFun (congrArg _ ?_) _) _
  funext acc2 e
  unfold acceptParent
  dsimp only
  split <;> simp [Option.or]

/-- C2: `findTokenParent` accepts exactly the candidates whose fetched
transaction record is a valid token transaction with the child's `tokenId`
(the membership characterization of `validParents`), and it returns the last
accepted candidate in input evaluation order — not the first and not the one
with the oldest block height. -/
theorem findTokenParent_last_valid (L : Ledger) (txid addr : String) :
    findTokenParent L txid addr = (validParents L txid addr).getLast?
    ∧ (∀ p : ParentRec,
        p ∈ validParents L txid addr ↔
          ∃ pu ∈ (L.getTxData txid).vin,
            ∃ e ∈ L.getTransactions addr,
              e.tx_hash = pu.txid ∧
              (L.getTxData e.tx_hash).isValidSlp ∧
              (L.getTxData txid).tokenId = (L.getTxData e.tx_hash).tokenId ∧
              p = ⟨e.tx_hash, e.height, pu.vout⟩) := by
  constructor
  · rw [findTokenParent_eq_foldl, foldl_overwrite_flat]
    simp [validParents]
  · intro p
    simp only [validParents, List.mem_flatMap, List.mem_filterMap, List.mem_filter,
      acceptParent]
    constructor
    · rintro ⟨pu, hpu, e, ⟨⟨he, hhash⟩, hacc⟩⟩
      by_cases hc : ((L.getTxData e.tx_hash).isValidSlp = true) ∧
          (L.getTxData txid).tokenId = (L.getTxData e.tx_hash).tokenId
      · rw [if_pos hc] at hacc
        cases hacc
        exact ⟨pu, hpu, e, he, by simpa using hhash, hc.1, hc.2, rfl⟩
      · rw [if_neg hc] at hacc
        exact absurd hacc (by simp)
    · rintro ⟨pu, hpu, e, he, hhash, hvalid, htid, rfl⟩
      exact ⟨pu, hpu, e, ⟨⟨he, by simpa using hhash⟩, by rw [if_pos ⟨hvalid, htid⟩]⟩⟩

/-! ## C8, C9: the ancestry walk -/

/-- If the resolution at `txid` is empty, one loop pass leaves the best-known
ancestor unchanged, whatever the fuel. -/
theorem getParentAgeAux_stops (L : Ledger) (addr txid : String) (oldest : Option ParentRec)
    (h : findTokenParent L txid addr = none) :
    ∀ fuel, getParentAgeAux L addr fuel txid oldest = oldest := by
  intro fuel
  cases fuel with
  | zero => rfl
  | succ n =>
    rw [getParentAgeAux]
    by_cases ht : txid = ""
    · rw [if_pos ht]
    · rw [if_neg ht, h]

/-- The walk along a resolution chain returns the last chain element,
falling back to the incoming best-known ancestor on the empty chain, for any
fuel of at least the chain length. -/
theorem getParentAgeAux_chain (L : Ledger) (addr : String) :
    ∀ (ps : List ParentRec) (t0 : String) (oldest : Option ParentRec) (fuel : Nat),
      IsResolutionChain L addr t0 ps → t0 ≠ "" → (∀ p ∈ ps, p.tx_hash ≠ "") →
      ps.length ≤ fuel →
      getParentAgeAux L addr fuel t0 oldest = (ps.getLast?).or oldest := by
  intro ps
  induction ps with
  | nil =>
    intro t0 oldest fuel hchain _ _ _
    simpa using getParentAgeAux_stops L addr t0 oldest hchain fuel
  | cons p ps ih =>
    intro t0 oldest fuel hchain ht0 hne hfuel
    obtain ⟨hfind, hrest⟩ := hchain
    cases fuel with
    | zero => exact absurd hfuel (by simp)
    | succ n =>
      rw [getParentAgeAux, if_neg ht0, hfind]
      dsimp only
      rw [ih p.tx_hash (some p) n hrest (hne p (by simp))
        (fun q hq => hne q (by simp [hq])) (Nat.le_of_succ_le_succ hfuel)]
      rw [List.getLast?_cons]
      cases ps.getLast? <;> simp [Option.or]

/-- C8: on an acyclic resolution chain of depth `K` (each listed parent is
what `findTokenParent` resolves next, the last one resolving to the empty
result), the walk of `getParentAge` is finished after at most `K` loop
iterations — every fuel of at least `K` returns the same value — and that
value is the deepest ancestor of the chain (`none` when the chain is
empty). -/
theorem getParentAge_chain (L : Ledger) (addr t0 : String) (ps : List ParentRec)
    (hchain : IsResolutionChain L addr t0 ps) (ht0 : t0 ≠ "")
    (hne : ∀ p ∈ ps, p.tx_hash ≠ "") :
    ∀ fuel, ps.length ≤ fuel → getParentAge L fuel t0 addr = ps.getLast? := by
  intro fuel hfuel
  rw [getParentAge, getParentAgeAux_chain L addr ps t0 none fuel hchain ht0 hne hfuel]
  cases ps.getLast? <;> simp [Option.or]

/-- C9: when a resolution step yields the empty result, the walk exits its
loop and returns the best-known parent found so far — `none` (the source's
`false`) when no parent was ever found: extracting `tx_hash` from the empty
result ends the loop instead of failing. -/
theorem getParentAge_empty_result (L : Ledger) (addr txid : String)
    (oldest : Option ParentRec) (h : findTokenParent L txid addr = none) :
    (∀ fuel, getParentAgeAux L addr fuel txid oldest = oldest)
    ∧ (∀ fuel, getParentAge L fuel txid addr = none) :=
  ⟨getParentAgeAux_stops L addr txid oldest h,
   fun fuel => getParentAgeAux_stops L addr txid none h fuel⟩

/-! ## C3, C4: the age computation -/

theorem rat_floor_eq (q : ℚ) : Rat.floor q = ⌊q⌋ := rfl

/-- `calcMerit_arr` with the aging flag on: the current height is the chain
height. -/
theorem calcMerit_arr_t (L : Ledger) (fuel : Nat) (xs : List Utxo)
    (address tokenId : String) :
    calcMerit L true fuel (.arr xs) address tokenId =
      .ok (xs.map (calcOne L true fuel (L.toCashAddress address) tokenId L.blockCount)) := by
  rw [calcMerit_arr]
  simp

/-- C3: with aging enabled, a confirmed UTXO (height ≠ 0) gets
`age = floor2 ((currentHeight − effectiveHeight) / 144)`, where the effective
height is the resolved ancestor's height when one was found and the UTXO's
own height otherwise; `floor2` truncates to two decimal places (a multiple of
1/100, never above its argument, less than 1/100 below it); and on the spec's
scenario B (height 665504, quantity 5000, no ancestor found, current height
665800) the age is 2.05 and the merit 10250. -/
theorem calcOne_age_formula (L : Ledger) (fuel : Nat) (bchAddr tokenId : String)
    (cbh : Int) (elem : Utxo) (hconf : elem.height ≠ 0) :
    ((calcOne L true fuel bchAddr tokenId cbh elem).age =
      floor2 (((cbh : ℚ) -
        ((match getParentAge L fuel elem.tx_hash bchAddr with
          | some p => p.height
          | none => elem.height) : ℚ)) / 144))
    ∧ (∀ x : ℚ, floor2 x ≤ x ∧ x - floor2 x < 1 / 100 ∧ ∃ n : Int, floor2 x = (n : ℚ) / 100)
    ∧ (∀ f : Nat,
        calcMerit demoLedger true f (.arr [scenUtxo]) "addr" "tok" =
          .ok [⟨scenUtxo, 2.05, some 10250⟩]) := by
  refine ⟨?_, ?_, ?_⟩
  · simp only [calcOne, if_true]
    rw [if_neg hconf]
  · intro x
    have h1 : ((⌊x * 100⌋ : ℤ) : ℚ) ≤ x * 100 := Int.floor_le _
    have h2 : x * 100 < (⌊x * 100⌋ : ℚ) + 1 := Int.lt_floor_add_one _
    refine ⟨?_, ?_, ⟨⌊x * 100⌋, ?_⟩⟩
    · rw [floor2, rat_floor_eq]; linarith
    · rw [floor2, rat_floor_eq]; linarith
    · rw [floor2, rat_floor_eq]
  · intro f
    have hnone : getParentAge demoLedger f "aa" "addr" = none :=
      getParentAgeAux_stops demoLedger "addr" "aa" none rfl f
    rw [calcMerit_arr_t]
    have hel : calcOne demoLedger true f (demoLedger.toCashAddress "addr") "tok"
        demoLedger.blockCount scenUtxo =
        ⟨scenUtxo, 2.05, some 10250⟩ := by
      simp only [calcOne, scenUtxo, demoLedger, id_eq, eq_self_iff_true, if_true]
        at hnone ⊢
      rw [hnone]
      norm_num [floor2, rat_floor_eq]
      exact ⟨5000, ⟨by decide, rfl⟩, by norm_num⟩
    simp only [List.map_cons, List.map_nil, hel]

/-- C4: a UTXO whose own block height is 0 (unconfirmed) is assigned age 0 by
`calcMerit`, whatever the aging flag and whatever the ancestry walk found. -/
theorem calcMerit_unconfirmed (L : Ledger) (meritAge : Bool) (fuel : Nat)
    (address tokenId : String) (xs : List Utxo) (out : List MeritUtxo)
    (hout : calcMerit L meritAge fuel (.arr xs) address tokenId = .ok out) :
    ∀ m ∈ out, m.utxo.height = 0 → m.age = 0 := by
  rw [calcMerit_arr] at hout
  simp only [Except.ok.injEq] at hout
  subst hout
  intro m hm h0
  rw [List.mem_map] at hm
  obtain ⟨u, hu, rfl⟩ := hm
  have hu0 : u.height = 0 := by simpa [calcOne] using h0
  cases meritAge <;> simp [calcOne, hu0]

/-! ## C5: aggregate validation and the empty selection -/

/-- C5: `agMerit` fails with the validation error on an empty address, and
returns 0 when the selected UTXO set of the address is empty. -/
theorem agMerit_validation (L : Ledger) (meritAge : Bool) (fuel : Nat)
    (address tokenId : String) :
    (address = "" →
      agMerit L meritAge fuel address tokenId = .error "an address must be specified!")
    ∧ (address ≠ "" → getTokenUtxos L address tokenId = [] →
      agMerit L meritAge fuel address tokenId = .ok (some 0)) := by
  constructor
  · intro h
    simp [agMerit, h]
  · intro h hsel
    simp [agMerit, if_neg h, hsel, calcMerit_arr, sumMerits]

/-! ## C6: the UTXO selector -/

theorem isPrefixL_iff (n : List Char) : ∀ h : List Char,
    (isPrefixL n h = true ↔ ∃ t, h = n ++ t) := by
  induction n with
  | nil => intro h; simp [isPrefixL]
  | cons a as ih =>
    intro h
    cases h with
    | nil => simp [isPrefixL]
    | cons b bs =>
      simp only [isPrefixL, Bool.and_eq_true, decide_eq_true_eq, ih bs, List.cons_append,
        List.cons.injEq]
      constructor
      · rintro ⟨rfl, t, rfl⟩
        exact ⟨t, rfl, rfl⟩
      · rintro ⟨t, rfl, rfl⟩
        exact ⟨rfl, t, rfl⟩

theorem isSubL_iff (n : List Char) : ∀ h : List Char,
    (isSubL n h = true ↔ ∃ p t, h = p ++ n ++ t) := by
  intro h
  induction h with
  | nil =>
    simp only [isSubL, List.isEmpty_iff]
    constructor
    · rintro rfl
      exact ⟨[], [], rfl⟩
    · rintro ⟨p, t, hpt⟩
      have hlen := congrArg List.length hpt
      simp only [List.length_nil, List.length_append] at hlen
      exact List.eq_nil_of_length_eq_zero (by omega)
  | cons b bs ih =>
    simp only [isSubL, Bool.or_eq_true, isPrefixL_iff, ih]
    constructor
    · rintro (⟨t, ht⟩ | ⟨p, t, hpt⟩)
      · exact ⟨[], t, by simpa using ht⟩
      · exact ⟨b :: p, t, by simp [hpt]⟩
    · rintro ⟨p, t, hpt⟩
      cases p with
      | nil =>
        left
        exact ⟨t, by simpa using hpt⟩
      | cons c cs =>
        right
        simp only [List.cons_append, List.cons.injEq] at hpt
        exact ⟨cs, t, hpt.2⟩

theorem jsIncludes_iff (s tok : String) :
    jsIncludes s tok = true ↔ ∃ p t, s.data = p ++ tok.data ++ t :=
  isSubL_iff tok.data s.data

/-- C6: in token mode, `getTokenUtxos` returns exactly the token UTXOs whose
`tokenId` contains the requested token id as a substring; in native mode it is
the filter of the `bchUtxos` by falsy `tokenId`, which — for UTXO sets obeying
the data-model invariant that a present token id is a non-empty string —
means exactly the UTXOs with no `tokenId` at all. -/
theorem getTokenUtxos_spec (L : Ledger) (address tokenId : String) :
    (tokenId ≠ "" →
      ∀ u, u ∈ getTokenUtxos L address tokenId ↔
        (u ∈ (L.getUtxos (L.toCashAddress address)).tokenUtxos ∧
          ∃ s, u.tokenId = some s ∧ ∃ p t, s.data = p ++ tokenId.data ++ t))
    ∧ (tokenId = "" →
      (getTokenUtxos L address tokenId =
        (L.getUtxos (L.toCashAddress address)).bchUtxos.filter
          (fun elem => ! truthyOpt elem.tokenId))
      ∧ ((∀ u ∈ (L.getUtxos (L.toCashAddress address)).bchUtxos, u.tokenId ≠ some "") →
        ∀ u, u ∈ getTokenUtxos L address tokenId ↔
          (u ∈ (L.getUtxos (L.toCashAddress address)).bchUtxos ∧ u.tokenId = none))) := by
  constructor
  · intro htok u
    rw [getTokenUtxos, if_pos htok, List.mem_filter]
    refine and_congr_right fun _ => ?_
    cases hid : u.tokenId with
    | none => simp [truthyOpt]
    | some s =>
      simp only [truthyOpt, Bool.and_eq_true, decide_eq_true_eq, jsIncludes_iff,
        Option.some.injEq]
      constructor
      · rintro ⟨-, p, t, hpt⟩
        exact ⟨s, rfl, p, t, hpt⟩
      · rintro ⟨s', hs', p, t, hpt⟩
        cases hs'
        refine ⟨?_, p, t, hpt⟩
        intro hs0
        subst hs0
        rw [show ("".data : List Char) = [] from rfl, List.nil_eq,
          List.append_eq_nil, List.append_eq_nil] at hpt
        exact htok (String.ext hpt.1.2)
  · intro htok
    constructor
    · rw [getTokenUtxos, if_neg (by simp [htok])]
    · intro hinv u
      rw [getTokenUtxos, if_neg (by simp [htok]), List.mem_filter]
      refine and_congr_right fun hu => ?_
      cases hid : u.tokenId with
      | none => simp [truthyOpt]
      | some s =>
        have hs : s ≠ "" := fun h => hinv u hu (by rw [hid, h])
        simp [truthyOpt, hs]

/-! ## C7: input validation of calcMerit -/

/-- C7 counterexample: a sequence containing a malformed UTXO record (its
`tokenQty` is absent) is not rejected — `calcMerit` succeeds on it, producing
a `NaN` merit (`none`) instead of failing. -/
theorem calcMerit_malformed_accepted :
    calcMerit demoLedger false 3 (.arr [badUtxo]) "addr" "tok" =
      .ok [⟨badUtxo, 0, none⟩] := rfl

/-- C7 (amended): `calcMerit` fails — with the validation error — exactly
when its input is not an array; the elements of an array are never
validated. -/
theorem calcMerit_error_iff (L : Ledger) (meritAge : Bool) (fuel : Nat)
    (input : JsArg Utxo) (address tokenId : String) :
    ((∃ e, calcMerit L meritAge fuel input address tokenId = .error e) ↔
      input = .notArray)
    ∧ calcMerit L meritAge fuel .notArray address tokenId =
        .error "Input hydratedUtxo must be an array" := by
  refine ⟨⟨?_, ?_⟩, rfl⟩
  · rintro ⟨e, he⟩
    cases input with
    | notArray => rfl
    | arr xs =>
      rw [calcMerit_arr] at he
      exact Except.noConfusion he
  · rintro rfl
    exact ⟨_, rfl⟩

/-! ## C10: the frame property of calcMerit -/

/-- C10: on an array input, `calcMerit` returns a list of the same length
holding the same UTXO records in the same order, each extended with the `age`
and `merit` fields and otherwise unchanged. -/
theorem calcMerit_frame (L : Ledger) (meritAge : Bool) (fuel : Nat)
    (address tokenId : String) (xs : List Utxo) (out : List MeritUtxo)
    (hout : calcMerit L meritAge fuel (.arr xs) address tokenId = .ok out) :
    out.length = xs.length ∧ out.map MeritUtxo.utxo = xs := by
  rw [calcMerit_arr] at hout
  simp only [Except.ok.injEq] at hout
  subst hout
  constructor
  · simp
  · rw [List.map_map]
    have hid : (MeritUtxo.utxo ∘ calcOne L meritAge fuel (L.toCashAddress address) tokenId
        (if meritAge then L.blockCount else 0)) = id := by
      funext u
      simp [calcOne]
    rw [hid, List.map_id]

/-! ## Witnesses -/

/-- Witness for C1: the aggregate of a concrete one-match wallet. -/
theorem agMerit_aging_off_witness :
    agMerit w1Ledger false 3 "addr" "tok" =
      .ok (some (((getTokenUtxos w1Ledger "addr" "tok").map
        (fun u => u.tokenQty.getD 0)).sum)) :=
  (agMerit_aging_off w1Ledger 3 "addr" "tok" (by decide)).1 (by decide) (by decide)

/-- Witness for C2: the parent matcher on the concrete chain ledger. -/
theorem findTokenParent_last_valid_witness :
    findTokenParent chainLedger "t0" "addr" =
      (validParents chainLedger "t0" "addr").getLast? :=
  (findTokenParent_last_valid chainLedger "t0" "addr").1

/-- Witness for C3: the age formula at the scenario UTXO. -/
theorem calcOne_age_formula_witness :
    (calcOne demoLedger true 3 "addr" "tok" 665800 scenUtxo).age =
      floor2 ((((665800 : Int) : ℚ) -
        ((match getParentAge demoLedger 3 scenUtxo.tx_hash "addr" with
          | some p => p.height
          | none => scenUtxo.height) : ℚ)) / 144) :=
  (calcOne_age_formula demoLedger 3 "addr" "tok" 665800 scenUtxo (by decide)).1

/-- Witness for C4: an unconfirmed UTXO processed over the chain ledger. -/
theorem calcMerit_unconfirmed_witness :
    (⟨zeroUtxo, 0, none⟩ : MeritUtxo).age = 0 :=
  calcMerit_unconfirmed chainLedger true 1 "addr" "tok" [zeroUtxo]
    [⟨zeroUtxo, 0, none⟩] rfl ⟨zeroUtxo, 0, none⟩ (List.Mem.head _) rfl

/-- Witness for C5: an empty address, and an address with no matching
UTXOs. -/
theorem agMerit_validation_witness :
    agMerit demoLedger true 3 "" "tok" = .error "an address must be specified!"
    ∧ agMerit demoLedger true 3 "addr" "tok" = .ok (some 0) :=
  ⟨(agMerit_validation demoLedger true 3 "" "tok").1 rfl,
   (agMerit_validation demoLedger true 3 "addr" "tok").2 (by decide) (by decide)⟩

/-- Witness for C6: token-mode selection at a concrete wallet. -/
theorem getTokenUtxos_spec_witness :
    scenUtxo ∈ getTokenUtxos w1Ledger "addr" "tok" ↔
      (scenUtxo ∈ (w1Ledger.getUtxos (w1Ledger.toCashAddress "addr")).tokenUtxos ∧
        ∃ s, scenUtxo.tokenId = some s ∧ ∃ p t, s.data = p ++ "tok".data ++ t) :=
  (getTokenUtxos_spec w1Ledger "addr" "tok").1 (by decide) scenUtxo

/-- Witness for C7 (amended): the non-array rejection at a concrete input. -/
theorem calcMerit_error_iff_witness :
    calcMerit demoLedger false 3 .notArray "addr" "tok" =
      .error "Input hydratedUtxo must be an array" :=
  (calcMerit_error_iff demoLedger false 3 .notArray "addr" "tok").2

/-- Witness for C8: the two-step chain of `chainLedger`. -/
theorem getParentAge_chain_witness :
    getParentAge chainLedger 2 "t0" "addr" = chainParents.getLast? :=
  getParentAge_chain chainLedger "addr" "t0" chainParents
    ⟨rfl, rfl, rfl⟩ (by decide) (by decide) 2 (by decide)

/-- Witness for C9: an immediately-empty resolution. -/
theorem getParentAge_empty_result_witness :
    getParentAge demoLedger 7 "aa" "addr" = none :=
  (getParentAge_empty_result demoLedger "addr" "aa" none rfl).2 7

/-- Witness for C10: the frame property at a concrete input. -/
theorem calcMerit_frame_witness :
    ([⟨badUtxo, 0, none⟩] : List MeritUtxo).length = [badUtxo].length
    ∧ List.map MeritUtxo.utxo [⟨badUtxo, 0, none⟩] = [badUtxo] :=
  calcMerit_frame demoLedger false 4 "addr" "tok" [badUtxo]
    [⟨badUtxo, 0, none⟩] rfl

end Merit
